import Mathlib

/-!
Verification of the media resource manager service
(`services/mediaresourcemanager/ResourceManagerService.cpp`).

The service keeps a registry mapping process ids to the list of per-client
resource records registered under that process, two boolean policy flags, and
a reclaim engine that selects victim clients under the registry lock and then
invokes their reclaim callbacks.  The definitions below are a shallow
embedding of that code: the `KeyedVector<int, ResourceInfos>` registry becomes
an association list kept sorted by key, `sp<IResourceManagerClient>` handles
become opaque numeric identifiers, the process-priority oracle becomes a
function `Int → Option Int`, and every fallible operation returns `Option`
(`none` standing for a `false`/failure return in the C++).
-/

set_option autoImplicit false

namespace ResourceManager

/-- Resource type tag (`String8 mType` in the source, compared against the
constants `kResourceSecureCodec`, `kResourceNonSecureCodec`,
`kResourceGraphicMemory`; `other` covers every other string). -/
inductive ResType where
  | secureCodec
  | nonSecureCodec
  | graphicMemory
  | other (s : String)
deriving DecidableEq

/-- A media resource: a type tag and an unsigned 64-bit value
(`MediaResource{mType, mValue}`). -/
structure MediaResource where
  mType : ResType
  mValue : Nat
deriving DecidableEq

/-- Opaque client handle (`sp<IResourceManagerClient>`), modelled as a
numeric identifier. -/
abbrev Client := Nat

/-- Per-client record (`ResourceInfo{clientId, client, resources}`). -/
structure ResourceInfo where
  clientId : Int
  client : Client
  resources : List MediaResource
deriving DecidableEq

/-- Ordered sequence of per-client records within one process
(`ResourceInfos = Vector<ResourceInfo>`). -/
abbrev ResourceInfos := List ResourceInfo

/-- The registry (`PidResourceInfosMap = KeyedVector<int, ResourceInfos>`);
// a `KeyedVector` iterates its entries in ascending key order. -/
abbrev PidResourceInfosMap := List (Int × ResourceInfos)

/-- Policy key tag (`String8 mType` of a `MediaResourcePolicy`, compared
against `kPolicySupportsMultipleSecureCodecs` and
`kPolicySupportsSecureWithNonSecureCodec`). -/
inductive PolicyType where
  | supportsMultipleSecureCodecs
  | supportsSecureWithNonSecureCodec
  | unknown (s : String)
deriving DecidableEq

/-- A policy entry: key and unsigned 64-bit value
(`MediaResourcePolicy{mType, mValue}`). -/
structure MediaResourcePolicy where
  mType : PolicyType
  mValue : Nat
deriving DecidableEq

/-- The two policy flags of the service
(`mSupportsMultipleSecureCodecs`, `mSupportsSecureWithNonSecureCodec`). -/
structure PolicyState where
  mSupportsMultipleSecureCodecs : Bool
  mSupportsSecureWithNonSecureCodec : Bool
deriving DecidableEq

/-- Flag values installed by the constructors of `ResourceManagerService`:
both flags start `true`. -/
def initPolicyState : PolicyState := ⟨true, true⟩

/-- One iteration of the loop in `ResourceManagerService::config`: a
recognized key overwrites the matching flag with `value != 0`; an unknown
key leaves the state unchanged. -/
def configOne (st : PolicyState) (p : MediaResourcePolicy) : PolicyState :=
  match p.mType with
  | .supportsMultipleSecureCodecs =>
      { st with mSupportsMultipleSecureCodecs := p.mValue != 0 }
  | .supportsSecureWithNonSecureCodec =>
      { st with mSupportsSecureWithNonSecureCodec := p.mValue != 0 }
  | .unknown _ => st

/-- `ResourceManagerService::config`: fold the policy entries in order over
the current flag state. -/
def config (policies : List MediaResourcePolicy) (st : PolicyState) : PolicyState :=
  policies.foldl configOne st

/-- `hasResourceType(String8 type, Vector<MediaResource> resources)`. -/
def hasResourceType (type : ResType) (resources : List MediaResource) : Bool :=
  resources.any (fun r => r.mType == type)

/-- `hasResourceType(String8 type, ResourceInfos infos)`. -/
def hasResourceTypeInfos (type : ResType) (infos : ResourceInfos) : Bool :=
  infos.any (fun i => hasResourceType type i.resources)

/-- Lookup of a key in the registry (`KeyedVector::indexOfKey` followed by
reading the value; `none` when the key is absent). -/
def mapFind (pid : Int) : PidResourceInfosMap → Option ResourceInfos
  | [] => none
  | (p, infos) :: rest => if p = pid then some infos else mapFind pid rest

/-- `KeyedVector::add`: replace the value stored at an existing key, or
insert a new entry at its sorted position. -/
def mapAdd (pid : Int) (infos : ResourceInfos) : PidResourceInfosMap → PidResourceInfosMap
  | [] => [(pid, infos)]
  | (p, is) :: rest =>
      if pid < p then (pid, infos) :: (p, is) :: rest
      else if pid = p then (pid, infos) :: rest
      else (p, is) :: mapAdd pid infos rest

/-- Body of `getResourceInfoForEdit` followed by the
`info.resources.appendVector(resources)` in `addResource`: the first record
with the given `clientId` has the resources appended; if none exists a new
record is pushed at the end (created with the supplied handle and the
appended resources). -/
def addToInfos (clientId : Int) (client : Client) (resources : List MediaResource) :
    ResourceInfos → ResourceInfos
  | [] => [⟨clientId, client, resources⟩]
  | i :: rest =>
      if i.clientId = clientId then
        { i with resources := i.resources ++ resources } :: rest
      else i :: addToInfos clientId client resources rest

/-- `ResourceManagerService::addResource`: ensure a process entry for `pid`
exists (`getResourceInfosForEdit`), then add the resources to the record of
`clientId` within it. -/
def addResource (pid clientId : Int) (client : Client)
    (resources : List MediaResource) (m : PidResourceInfosMap) : PidResourceInfosMap :=
  mapAdd pid (addToInfos clientId client resources ((mapFind pid m).getD [])) m

/-- Inner loop of `removeResource` over one process entry: remove every
record whose `clientId` matches, reporting whether any match was found. -/
def removeFromInfos (clientId : Int) : ResourceInfos → ResourceInfos × Bool
  | [] => ([], false)
  | i :: rest =>
      if i.clientId = clientId then ((removeFromInfos clientId rest).1, true)
      else (i :: (removeFromInfos clientId rest).1, (removeFromInfos clientId rest).2)

/-- `ResourceManagerService::removeResource`: scan the process entries in
order; within the first entry containing a matching record remove every
match and stop; a miss is a silent no-op. -/
def removeResource (clientId : Int) : PidResourceInfosMap → PidResourceInfosMap
  | [] => []
  | (p, infos) :: rest =>
      if (removeFromInfos clientId infos).2 then (p, (removeFromInfos clientId infos).1) :: rest
      else (p, infos) :: removeResource clientId rest

/-- `ResourceManagerService::isCallingPriorityHigher_l`: both priorities
must be readable and the caller's value strictly smaller. -/
def isCallingPriorityHigher (oracle : Int → Option Int) (callingPid pid : Int) : Bool :=
  match oracle callingPid with
  | none => false
  | some callingPidPriority =>
      match oracle pid with
      | none => false
      | some priority => callingPidPriority < priority

/-- Scan of one process entry inside `getAllClients_l`: every record holding
the requested type must pass the strict priority check, and its client is
collected; a failed check aborts with `none` (the `return false` in the
source). -/
def getAllClientsEntry (oracle : Int → Option Int) (callingPid pid : Int)
    (type : ResType) : ResourceInfos → Option (List Client)
  | [] => some []
  | i :: rest =>
      if hasResourceType type i.resources then
        if isCallingPriorityHigher oracle callingPid pid then
          match getAllClientsEntry oracle callingPid pid type rest with
          | none => none
          | some l => some (i.client :: l)
        else none
      else getAllClientsEntry oracle callingPid pid type rest

/-- `ResourceManagerService::getAllClients_l`: collect, across every process
entry, the clients holding the requested type, failing if any holder's
process does not have strictly lower priority than the caller. -/
def getAllClients (oracle : Int → Option Int) (callingPid : Int) (type : ResType) :
    PidResourceInfosMap → Option (List Client)
  | [] => some []
  | (p, infos) :: rest =>
      match getAllClientsEntry oracle callingPid p type infos with
      | none => none
      | some here =>
          match getAllClients oracle callingPid type rest with
          | none => none
          | some there => some (here ++ there)

/-- Loop of `ResourceManagerService::getLowestPriorityPid_l`, with the
`pid = -1` sentinel of the source kept in the accumulator: empty entries,
entries without the type, and entries whose priority the oracle cannot read
are skipped; otherwise the running worst (numerically greatest) priority is
updated. -/
def getLowestPriorityPidLoop (oracle : Int → Option Int) (type : ResType) :
    PidResourceInfosMap → Int × Int → Int × Int
  | [], acc => acc
  | (p, infos) :: rest, acc =>
      if infos.isEmpty then getLowestPriorityPidLoop oracle type rest acc
      else if hasResourceTypeInfos type infos then
        match oracle p with
        | none => getLowestPriorityPidLoop oracle type rest acc
        | some tempPriority =>
            if acc.1 = -1 ∨ tempPriority > acc.2 then
              getLowestPriorityPidLoop oracle type rest (p, tempPriority)
            else getLowestPriorityPidLoop oracle type rest acc
      else getLowestPriorityPidLoop oracle type rest acc

/-- `ResourceManagerService::getLowestPriorityPid_l`: run the loop from the
sentinel accumulator and succeed exactly when some pid was recorded. -/
def getLowestPriorityPid (oracle : Int → Option Int) (type : ResType)
    (m : PidResourceInfosMap) : Option (Int × Int) :=
  let r := getLowestPriorityPidLoop oracle type m (-1, -1)
  if r.1 = -1 then none else some r

/-- Scan of one client's resource vector inside `getBiggestClient_l`:
a resource of the requested type with value strictly above the running
largest installs this client as the current candidate. -/
def scanResources (type : ResType) (client : Client) :
    List MediaResource → Nat × Option Client → Nat × Option Client
  | [], acc => acc
  | r :: rest, acc =>
      if r.mType = type then
        if r.mValue > acc.1 then scanResources type client rest (r.mValue, some client)
        else scanResources type client rest acc
      else scanResources type client rest acc

/-- Outer loop of `getBiggestClient_l` over the records of one process
entry, threading the `(largestValue, clientTemp)` accumulator. -/
def getBiggestLoop (type : ResType) :
    ResourceInfos → Nat × Option Client → Nat × Option Client
  | [], acc => acc
  | i :: rest, acc =>
      getBiggestLoop type rest (scanResources type i.client i.resources acc)

/-- `ResourceManagerService::getBiggestClient_l`: fail when the pid is not
in the registry, otherwise run the scan from `largestValue = 0` and
`clientTemp = NULL`; a still-`NULL` candidate at the end is a failure. -/
def getBiggestClient (pid : Int) (type : ResType) (m : PidResourceInfosMap) :
    Option Client :=
  match mapFind pid m with
  | none => none
  | some infos => (getBiggestLoop type infos (0, none)).2

/-- `ResourceManagerService::getLowestPriorityBiggestClient_l`: read the
caller's priority, find the lowest-priority holder of the type, require the
holder's priority value to be strictly greater than the caller's, and pick
the biggest client within that process. -/
def getLowestPriorityBiggestClient (oracle : Int → Option Int) (callingPid : Int)
    (type : ResType) (m : PidResourceInfosMap) : Option Client :=
  match oracle callingPid with
  | none => none
  | some callingPriority =>
      match getLowestPriorityPid oracle type m with
      | none => none
      | some lp =>
          if lp.2 ≤ callingPriority then none
          else getBiggestClient lp.1 type m

/-- Contribution of one requested resource to the first pass of
`reclaimResource`: a `SecureCodec` request collects all secure holders when
multiple secure codecs are not supported and additionally all non-secure
holders when secure-with-non-secure is not supported; a `NonSecureCodec`
request collects all secure holders when secure-with-non-secure is not
supported; any other type contributes nothing. -/
def phase1Resource (oracle : Int → Option Int) (pol : PolicyState) (callingPid : Int)
    (rt : ResType) (m : PidResourceInfosMap) : Option (List Client) :=
  match rt with
  | .secureCodec =>
      match (if pol.mSupportsMultipleSecureCodecs then some []
             else getAllClients oracle callingPid .secureCodec m) with
      | none => none
      | some a =>
          match (if pol.mSupportsSecureWithNonSecureCodec then some []
                 else getAllClients oracle callingPid .nonSecureCodec m) with
          | none => none
          | some b => some (a ++ b)
  | .nonSecureCodec =>
      if pol.mSupportsSecureWithNonSecureCodec then some []
      else getAllClients oracle callingPid .secureCodec m
  | _ => some []

/-- First pass of `reclaimResource` (secure/non-secure codec conflict):
iterate the requested resources in order, accumulating the collected
clients; any failing collection aborts the call. -/
def phase1 (oracle : Int → Option Int) (pol : PolicyState) (callingPid : Int) :
    List MediaResource → PidResourceInfosMap → Option (List Client)
  | [], _ => some []
  | r :: rest, m =>
      match phase1Resource oracle pol callingPid r.mType m with
      | none => none
      | some a =>
          match phase1 oracle pol callingPid rest m with
          | none => none
          | some b => some (a ++ b)

/-- Second pass of `reclaimResource`: for each requested `GraphicMemory`
resource pick the lowest-priority biggest client, failing the call when the
selection fails; other types contribute nothing. -/
def phase2 (oracle : Int → Option Int) (callingPid : Int) :
    List MediaResource → PidResourceInfosMap → Option (List Client)
  | [], _ => some []
  | r :: rest, m =>
      if r.mType = .graphicMemory then
        match getLowestPriorityBiggestClient oracle callingPid r.mType m with
        | none => none
        | some c =>
            match phase2 oracle callingPid rest m with
            | none => none
            | some b => some (c :: b)
      else phase2 oracle callingPid rest m

/-- Locked section of `ResourceManagerService::reclaimResource`: run the
first pass; only when it contributed no client run the second pass. -/
def reclaimVictims (oracle : Int → Option Int) (pol : PolicyState) (callingPid : Int)
    (resources : List MediaResource) (m : PidResourceInfosMap) : Option (List Client) :=
  match phase1 oracle pol callingPid resources m with
  | none => none
  | some cs => if cs.isEmpty then phase2 oracle callingPid resources m else some cs

/-- Callback loop of `reclaimResource`: invoke the victims in order,
stopping at the first failure; the second component records the clients
whose callback was actually invoked. -/
def runCallbacks (cb : Client → Bool) : List Client → Bool × List Client
  | [] => (true, [])
  | c :: rest =>
      if cb c then
        let r := runCallbacks cb rest
        (r.1, c :: r.2)
      else (false, [c])

/-- `ResourceManagerService::reclaimResource`: compute the victim list under
the lock, return `false` when it is empty (or when its computation failed),
otherwise invoke the callbacks in order.  The result pairs the returned
boolean with the list of clients whose callback was invoked. -/
def reclaimResource (oracle : Int → Option Int) (pol : PolicyState) (cb : Client → Bool)
    (callingPid : Int) (resources : List MediaResource) (m : PidResourceInfosMap) :
    Bool × List Client :=
  match reclaimVictims oracle pol callingPid resources m with
  | none => (false, [])
  | some clients =>
      if clients.isEmpty then (false, [])
      else runCallbacks cb clients

/-- Operations mutating the registry, for stating state-machine invariants
over call sequences. -/
inductive RMOp where
  | add (pid clientId : Int) (client : Client) (resources : List MediaResource)
  | remove (clientId : Int)
deriving DecidableEq

/-- Apply one mutating operation to the registry. -/
def applyOp (m : PidResourceInfosMap) : RMOp → PidResourceInfosMap
  | .add pid clientId client resources => addResource pid clientId client resources m
  | .remove clientId => removeResource clientId m

/-- Run a sequence of mutating operations from the empty registry. -/
def runOps (ops : List RMOp) : PidResourceInfosMap :=
  ops.foldl applyOp []

/-- Whether some record in the entry carries the given client id. -/
def entryHasClientId (clientId : Int) (e : Int × ResourceInfos) : Bool :=
  e.2.any (fun i => i.clientId == clientId)

/-- Number of process entries containing the given client id. -/
def entriesWithClientId (clientId : Int) (m : PidResourceInfosMap) : Nat :=
  (m.filter (entryHasClientId clientId)).length

/-- Whether the given client id occurs anywhere in the registry. -/
def clientIdInMap (clientId : Int) (m : PidResourceInfosMap) : Bool :=
  m.any (entryHasClientId clientId)

/-- Registry well-formedness maintained by `KeyedVector`: entries sorted by
strictly increasing pid. -/
def SortedKeys (m : PidResourceInfosMap) : Prop :=
  m.Pairwise (fun a b => a.1 < b.1)

/-- Every client id stored in the registry was introduced by some `add`
operation of the sequence, registered under the same pid. -/
def ProvenanceInv (ops : List RMOp) (m : PidResourceInfosMap) : Prop :=
  ∀ p infos, (p, infos) ∈ m → ∀ i ∈ infos, ∃ hdl rs, RMOp.add p i.clientId hdl rs ∈ ops

/-- Bool-level consistency of an operation sequence: no client id is added
under two different pids. -/
def opsClientPidConsistent (ops : List RMOp) : Bool :=
  ops.all fun o => ops.all fun o' =>
    match o, o' with
    | .add p c _ _, .add p' c' _ _ => c != c' || p == p'
    | _, _ => true

/-- Whether a requested resource type makes the first pass of
`reclaimResource` collect all holders of type `t` under the given policy
flags. -/
def triggersCollect (pol : PolicyState) (rt t : ResType) : Bool :=
  (rt == .secureCodec && !pol.mSupportsMultipleSecureCodecs && t == .secureCodec) ||
  (rt == .secureCodec && !pol.mSupportsSecureWithNonSecureCodec && t == .nonSecureCodec) ||
  (rt == .nonSecureCodec && !pol.mSupportsSecureWithNonSecureCodec && t == .secureCodec)

/-- Largest value of a resource of the given type within one resource list
(`0` when there is none); specification-side notion used to characterize
`getBiggestClient`. -/
def maxListRes (type : ResType) : List MediaResource → Nat
  | [] => 0
  | r :: rest =>
      if r.mType = type then max r.mValue (maxListRes type rest)
      else maxListRes type rest

/-- Largest value of a resource of the given type within one process entry
(`0` when there is none). -/
def maxInfosRes (type : ResType) : ResourceInfos → Nat
  | [] => 0
  | i :: rest => max (maxListRes type i.resources) (maxInfosRes type rest)

/-! Helper lemmas. -/

/-- First pass contributes nothing when no requested resource triggers a
secure/non-secure collection under the current flags. -/
theorem phase1_benign (oracle : Int → Option Int) (pol : PolicyState) (callingPid : Int)
    (resources : List MediaResource) (m : PidResourceInfosMap)
    (h : ∀ r ∈ resources,
      (r.mType = .secureCodec → pol.mSupportsMultipleSecureCodecs = true ∧
        pol.mSupportsSecureWithNonSecureCodec = true) ∧
      (r.mType = .nonSecureCodec → pol.mSupportsSecureWithNonSecureCodec = true)) :
    phase1 oracle pol callingPid resources m = some [] := by
  induction resources with
  | nil => rfl
  | cons r rest ih =>
    have hr := h r (by simp)
    have h1 : phase1Resource oracle pol callingPid r.mType m = some [] := by
      cases hrt : r.mType with
      | secureCodec =>
        obtain ⟨hf1, hf2⟩ := hr.1 hrt
        simp [phase1Resource, hf1, hf2]
      | nonSecureCodec =>
        have hf2 := hr.2 hrt
        simp [phase1Resource, hf2]
      | graphicMemory => simp [phase1Resource]
      | other s => simp [phase1Resource]
    simp [phase1, h1, ih (fun x hx => h x (by simp [hx]))]

/-- Second pass contributes nothing when no requested resource is
`GraphicMemory`. -/
theorem phase2_no_graphic (oracle : Int → Option Int) (callingPid : Int)
    (resources : List MediaResource) (m : PidResourceInfosMap)
    (h : ∀ r ∈ resources, r.mType ≠ .graphicMemory) :
    phase2 oracle callingPid resources m = some [] := by
  induction resources with
  | nil => rfl
  | cons r rest ih =>
    have hr := h r (by simp)
    simp [phase2, hr, ih (fun x hx => h x (by simp [hx]))]

/-- Closed form of the callback loop: the returned boolean is the
conjunction of all callback results, and the invoked clients are the
successful prefix followed by the first failing client, if any. -/
theorem runCallbacks_eq (cb : Client → Bool) (cs : List Client) :
    runCallbacks cb cs = (cs.all cb, cs.takeWhile cb ++ (cs.dropWhile cb).take 1) := by
  induction cs with
  | nil => rfl
  | cons c rest ih =>
    by_cases h : cb c = true
    · simp [runCallbacks, h, ih, List.takeWhile_cons, List.dropWhile_cons]
    · simp [runCallbacks, h, List.takeWhile_cons, List.dropWhile_cons]

/-- All callbacks succeeding means the take-while prefix is everything and
the drop-while suffix is empty. -/
theorem allTrue_take_drop (cb : Client → Bool) (cs : List Client) (h : cs.all cb = true) :
    cs.takeWhile cb = cs ∧ cs.dropWhile cb = [] := by
  induction cs with
  | nil => simp
  | cons c rest ih =>
    simp only [List.all_cons, Bool.and_eq_true] at h
    simp [List.takeWhile_cons, List.dropWhile_cons, h.1, ih h.2]

/-- Some callback failing means the drop-while suffix starts with a
failing client. -/
theorem allFalse_first_fail (cb : Client → Bool) (cs : List Client) (h : cs.all cb = false) :
    ∃ c, (cs.dropWhile cb).take 1 = [c] ∧ cb c = false := by
  induction cs with
  | nil => simp at h
  | cons c rest ih =>
    by_cases hc : cb c = true
    · simp only [List.all_cons, hc, Bool.true_and] at h
      simpa [List.dropWhile_cons, hc] using ih h
    · refine ⟨c, ?_, by simpa using hc⟩
      simp [List.dropWhile_cons, hc]

/-- Closed form of the resource scan of one client: the largest value moves
up to the largest resource of the type, and the client is installed exactly
when that largest value strictly exceeds the incoming one. -/
theorem scanResources_eq (type : ResType) (client : Client) :
    ∀ (rs : List MediaResource) (lv : Nat) (ct : Option Client),
      scanResources type client rs (lv, ct) =
        if maxListRes type rs > lv then (maxListRes type rs, some client) else (lv, ct)
  | [], lv, ct => by simp [scanResources, maxListRes]
  | r :: rest, lv, ct => by
    rw [scanResources]
    by_cases hT : r.mType = type
    · rw [if_pos hT]
      have hm : maxListRes type (r :: rest) =
          max r.mValue (maxListRes type rest) := by
        simp [maxListRes, hT]
      by_cases hv : r.mValue > lv
      · rw [if_pos (show r.mValue > (lv, ct).1 from hv),
          scanResources_eq type client rest r.mValue (some client), hm]
        by_cases h2 : maxListRes type rest > r.mValue
        · rw [if_pos h2, if_pos (by omega)]
          have : max r.mValue (maxListRes type rest) = maxListRes type rest := by omega
          rw [this]
        · rw [if_neg h2, if_pos (by omega)]
          have : max r.mValue (maxListRes type rest) = r.mValue := by omega
          rw [this]
      · rw [if_neg (show ¬ r.mValue > (lv, ct).1 from hv),
          scanResources_eq type client rest lv ct, hm]
        by_cases h2 : maxListRes type rest > lv
        · rw [if_pos h2, if_pos (by omega)]
          have : max r.mValue (maxListRes type rest) = maxListRes type rest := by omega
          rw [this]
        · rw [if_neg h2, if_neg (by omega)]
    · rw [if_neg hT, scanResources_eq type client rest lv ct]
      have hm : maxListRes type (r :: rest) = maxListRes type rest := by
        simp [maxListRes, hT]
      rw [hm]

/-- Closed form of the per-entry scan of `getBiggestClient_l`: starting
from `(lv, ct)`, the result is unchanged unless some client's largest
resource of the type strictly exceeds `lv`, in which case the winner is the
first client achieving the entry-wide maximum. -/
theorem getBiggestLoop_eq (type : ResType) :
    ∀ (infos : ResourceInfos) (lv : Nat) (ct : Option Client),
      getBiggestLoop type infos (lv, ct) =
        if maxInfosRes type infos > lv then
          (maxInfosRes type infos,
            (infos.find? (fun i => maxListRes type i.resources == maxInfosRes type infos)).map
              (fun i => i.client))
        else (lv, ct)
  | [], lv, ct => by simp [getBiggestLoop, maxInfosRes]
  | i :: rest, lv, ct => by
    rw [getBiggestLoop, scanResources_eq]
    have hm : maxInfosRes type (i :: rest) =
        max (maxListRes type i.resources) (maxInfosRes type rest) := rfl
    by_cases h1 : maxListRes type i.resources > lv
    · rw [if_pos h1, getBiggestLoop_eq type rest (maxListRes type i.resources) (some i.client)]
      by_cases h2 : maxInfosRes type rest > maxListRes type i.resources
      · have hmax : maxInfosRes type (i :: rest) = maxInfosRes type rest := by
          rw [hm]; omega
        rw [if_pos h2, hmax, if_pos (by omega), List.find?_cons_of_neg]
        simp only [beq_iff_eq]
        omega
      · have hmax : maxInfosRes type (i :: rest) = maxListRes type i.resources := by
          rw [hm]; omega
        rw [if_neg h2, hmax, if_pos h1, List.find?_cons_of_pos]
        · rfl
        · simp
    · rw [if_neg h1, getBiggestLoop_eq type rest lv ct]
      by_cases h3 : maxInfosRes type rest > lv
      · have hmax : maxInfosRes type (i :: rest) = maxInfosRes type rest := by
          rw [hm]; omega
        rw [if_pos h3, hmax, if_pos h3, List.find?_cons_of_neg]
        simp only [beq_iff_eq]
        omega
      · rw [if_neg h3, hm, if_neg (by omega)]

/-- Closed form of `getBiggestClient`: failure exactly on an absent pid or
an entry whose largest resource of the type is `0`; otherwise the client of
the first record attaining the entry-wide maximum. -/
theorem getBiggestClient_eq (pid : Int) (type : ResType) (m : PidResourceInfosMap) :
    getBiggestClient pid type m =
      match mapFind pid m with
      | none => none
      | some infos =>
          if maxInfosRes type infos = 0 then none
          else (infos.find? (fun i => maxListRes type i.resources == maxInfosRes type infos)).map
            (fun i => i.client) := by
  unfold getBiggestClient
  cases mapFind pid m with
  | none => rfl
  | some infos =>
    show (getBiggestLoop type infos (0, none)).2 =
      (if maxInfosRes type infos = 0 then none
       else (infos.find? (fun i => maxListRes type i.resources == maxInfosRes type infos)).map
         (fun i => i.client))
    rw [getBiggestLoop_eq]
    by_cases h : maxInfosRes type infos = 0
    · rw [if_neg (show ¬ maxInfosRes type infos > 0 by omega), if_pos h]
    · rw [if_pos (show maxInfosRes type infos > 0 by omega), if_neg h]

/-- A successful biggest-client selection names the client of some record
of the target pid's entry. -/
theorem getBiggestClient_mem (pid : Int) (type : ResType) (m : PidResourceInfosMap)
    (c : Client) (h : getBiggestClient pid type m = some c) :
    ∃ infos, mapFind pid m = some infos ∧ ∃ i ∈ infos, i.client = c := by
  rw [getBiggestClient_eq] at h
  split at h
  · cases h
  · rename_i infos hf
    split at h
    · cases h
    · obtain ⟨i, hfind, hci⟩ := Option.map_eq_some'.mp h
      exact ⟨infos, hf, i, List.mem_of_find?_eq_some hfind, hci⟩

/-- Every client collected from one process entry belongs to that entry,
and its collection certifies that the strict priority check for the entry's
pid succeeded. -/
theorem getAllClientsEntry_mem (oracle : Int → Option Int) (callingPid p : Int)
    (type : ResType) :
    ∀ (infos : ResourceInfos) (l : List Client),
      getAllClientsEntry oracle callingPid p type infos = some l →
      ∀ c ∈ l, (∃ i ∈ infos, i.client = c) ∧
        isCallingPriorityHigher oracle callingPid p = true := by
  intro infos
  induction infos with
  | nil =>
    intro l h c hc
    rw [getAllClientsEntry] at h
    cases h
    simp at hc
  | cons i rest ih =>
    intro l h c hc
    rw [getAllClientsEntry] at h
    split at h
    · rename_i hHas
      split at h
      · rename_i hPrio
        split at h
        · cases h
        · rename_i l' hrec
          cases h
          rcases List.mem_cons.mp hc with hceq | hcl
          · exact ⟨⟨i, List.mem_cons_self i rest, hceq.symm⟩, hPrio⟩
          · obtain ⟨⟨i', hi', hci'⟩, hp⟩ := ih l' hrec c hcl
            exact ⟨⟨i', List.mem_cons_of_mem i hi', hci'⟩, hp⟩
      · cases h
    · rename_i hHas
      obtain ⟨⟨i', hi', hci'⟩, hp⟩ := ih l h c hc
      exact ⟨⟨i', List.mem_cons_of_mem i hi', hci'⟩, hp⟩

/-- Every client collected by `getAllClients` belongs to some process entry
of the registry whose pid passed the strict priority check. -/
theorem getAllClients_mem (oracle : Int → Option Int) (callingPid : Int) (type : ResType) :
    ∀ (m : PidResourceInfosMap) (l : List Client),
      getAllClients oracle callingPid type m = some l →
      ∀ c ∈ l, ∃ p infos, (p, infos) ∈ m ∧ (∃ i ∈ infos, i.client = c) ∧
        isCallingPriorityHigher oracle callingPid p = true := by
  intro m
  induction m with
  | nil =>
    intro l h c hc
    rw [getAllClients] at h
    cases h
    simp at hc
  | cons e rest ih =>
    intro l h c hc
    obtain ⟨p, infos⟩ := e
    rw [getAllClients] at h
    split at h
    · cases h
    · rename_i here hhere
      split at h
      · cases h
      · rename_i there hthere
        cases h
        rcases List.mem_append.mp hc with hch | hct
        · obtain ⟨hex, hp⟩ := getAllClientsEntry_mem oracle callingPid p type infos here hhere c hch
          exact ⟨p, infos, List.mem_cons_self _ _, hex, hp⟩
        · obtain ⟨p', infos', hmem, hex, hp⟩ := ih there hthere c hct
          exact ⟨p', infos', List.mem_cons_of_mem _ hmem, hex, hp⟩

/-- Whenever the lowest-priority loop leaves the `-1` sentinel, the recorded
pid's priority was read successfully from the oracle. -/
theorem getLowestPriorityPidLoop_oracle (oracle : Int → Option Int) (type : ResType) :
    ∀ (m : PidResourceInfosMap) (acc : Int × Int),
      (acc.1 ≠ -1 → oracle acc.1 = some acc.2) →
      ((getLowestPriorityPidLoop oracle type m acc).1 ≠ -1 →
        oracle (getLowestPriorityPidLoop oracle type m acc).1 =
          some (getLowestPriorityPidLoop oracle type m acc).2) := by
  intro m
  induction m with
  | nil =>
    intro acc hacc
    simpa [getLowestPriorityPidLoop] using hacc
  | cons e rest ih =>
    intro acc hacc
    obtain ⟨p, infos⟩ := e
    rw [getLowestPriorityPidLoop]
    split
    · exact ih acc hacc
    · split
      · split
        · exact ih acc hacc
        · rename_i tp horacle
          split
          · exact ih (p, tp) (fun _ => horacle)
          · exact ih acc hacc
      · exact ih acc hacc

/-- The pid selected by `getLowestPriorityPid` has a readable priority, and
the reported priority is exactly the oracle's answer. -/
theorem getLowestPriorityPid_oracle (oracle : Int → Option Int) (type : ResType)
    (m : PidResourceInfosMap) (lp : Int × Int)
    (h : getLowestPriorityPid oracle type m = some lp) : oracle lp.1 = some lp.2 := by
  simp only [getLowestPriorityPid] at h
  split at h
  · cases h
  · rename_i hne
    cases h
    exact getLowestPriorityPidLoop_oracle oracle type m (-1, -1)
      (fun hh => absurd rfl hh) hne

/-- A key found in the registry names one of its entries. -/
theorem mapFind_mem (pid : Int) :
    ∀ (m : PidResourceInfosMap) (infos : ResourceInfos),
      mapFind pid m = some infos → (pid, infos) ∈ m
  | [], infos, h => by cases h
  | (p, is) :: rest, infos, h => by
    rw [mapFind] at h
    by_cases hp : p = pid
    · rw [if_pos hp] at h
      cases h
      subst hp
      exact List.mem_cons_self _ _
    · rw [if_neg hp] at h
      exact List.mem_cons_of_mem _ (mapFind_mem pid rest infos h)

/-- A successful lowest-priority-biggest-client selection names a client of
some process entry whose pid passed the strict priority check against the
caller. -/
theorem getLowestPriorityBiggestClient_mem (oracle : Int → Option Int) (callingPid : Int)
    (type : ResType) (m : PidResourceInfosMap) (c : Client)
    (h : getLowestPriorityBiggestClient oracle callingPid type m = some c) :
    ∃ p infos, (p, infos) ∈ m ∧ (∃ i ∈ infos, i.client = c) ∧
      isCallingPriorityHigher oracle callingPid p = true := by
  rw [getLowestPriorityBiggestClient] at h
  split at h
  · cases h
  · rename_i callingPriority hcp
    split at h
    · cases h
    · rename_i lp hlp
      split at h
      · cases h
      · rename_i hguard
        obtain ⟨infos, hf, i, hi, hic⟩ := getBiggestClient_mem lp.1 type m c h
        have horc : oracle lp.1 = some lp.2 :=
          getLowestPriorityPid_oracle oracle type m lp hlp
        refine ⟨lp.1, infos, mapFind_mem _ _ _ hf, ⟨i, hi, hic⟩, ?_⟩
        simp only [isCallingPriorityHigher, hcp, horc, decide_eq_true_eq]
        omega

/-- Every client of a successful first-pass contribution comes from a
process entry whose pid passed the strict priority check. -/
theorem phase1Resource_mem (oracle : Int → Option Int) (pol : PolicyState)
    (callingPid : Int) (rt : ResType) (m : PidResourceInfosMap) (l : List Client)
    (h : phase1Resource oracle pol callingPid rt m = some l) :
    ∀ c ∈ l, ∃ p infos, (p, infos) ∈ m ∧ (∃ i ∈ infos, i.client = c) ∧
      isCallingPriorityHigher oracle callingPid p = true := by
  intro c hc
  cases rt with
  | secureCodec =>
    rw [phase1Resource] at h
    split at h
    · cases h
    · rename_i a ha
      split at h
      · cases h
      · rename_i b hb
        cases h
        rcases List.mem_append.mp hc with hca | hcb
        · by_cases hf : pol.mSupportsMultipleSecureCodecs = true
          · rw [if_pos hf] at ha
            cases ha
            simp at hca
          · rw [if_neg hf] at ha
            exact getAllClients_mem oracle callingPid .secureCodec m a ha c hca
        · by_cases hf : pol.mSupportsSecureWithNonSecureCodec = true
          · rw [if_pos hf] at hb
            cases hb
            simp at hcb
          · rw [if_neg hf] at hb
            exact getAllClients_mem oracle callingPid .nonSecureCodec m b hb c hcb
  | nonSecureCodec =>
    rw [phase1Resource] at h
    by_cases hf : pol.mSupportsSecureWithNonSecureCodec = true
    · rw [if_pos hf] at h
      cases h
      simp at hc
    · rw [if_neg hf] at h
      exact getAllClients_mem oracle callingPid .secureCodec m l h c hc
  | graphicMemory =>
    simp only [phase1Resource] at h
    cases h
    simp at hc
  | other s =>
    simp only [phase1Resource] at h
    cases h
    simp at hc

/-- Every client of a successful first pass comes from a process entry
whose pid passed the strict priority check. -/
theorem phase1_mem (oracle : Int → Option Int) (pol : PolicyState) (callingPid : Int) :
    ∀ (resources : List MediaResource) (m : PidResourceInfosMap) (l : List Client),
      phase1 oracle pol callingPid resources m = some l →
      ∀ c ∈ l, ∃ p infos, (p, infos) ∈ m ∧ (∃ i ∈ infos, i.client = c) ∧
        isCallingPriorityHigher oracle callingPid p = true := by
  intro resources
  induction resources with
  | nil =>
    intro m l h c hc
    rw [phase1] at h
    cases h
    simp at hc
  | cons r rest ih =>
    intro m l h c hc
    rw [phase1] at h
    split at h
    · cases h
    · rename_i a ha
      split at h
      · cases h
      · rename_i b hb
        cases h
        rcases List.mem_append.mp hc with hca | hcb
        · exact phase1Resource_mem oracle pol callingPid r.mType m a ha c hca
        · exact ih m b hb c hcb

/-- Every client of a successful second pass comes from a process entry
whose pid passed the strict priority check. -/
theorem phase2_mem (oracle : Int → Option Int) (callingPid : Int) :
    ∀ (resources : List MediaResource) (m : PidResourceInfosMap) (l : List Client),
      phase2 oracle callingPid resources m = some l →
      ∀ c ∈ l, ∃ p infos, (p, infos) ∈ m ∧ (∃ i ∈ infos, i.client = c) ∧
        isCallingPriorityHigher oracle callingPid p = true := by
  intro resources
  induction resources with
  | nil =>
    intro m l h c hc
    rw [phase2] at h
    cases h
    simp at hc
  | cons r rest ih =>
    intro m l h c hc
    rw [phase2] at h
    split at h
    · split at h
      · cases h
      · rename_i c' hc'
        split at h
        · cases h
        · rename_i b hb
          cases h
          rcases List.mem_cons.mp hc with hceq | hcb
          · subst hceq
            exact getLowestPriorityBiggestClient_mem oracle callingPid r.mType m c hc'
          · exact ih m b hb c hcb
    · exact ih m l h c hc

/-- The strict priority check fails when the holder's priority cannot be
read. -/
theorem isCallingPriorityHigher_oracle_none (oracle : Int → Option Int)
    (callingPid p : Int) (h : oracle p = none) :
    isCallingPriorityHigher oracle callingPid p = false := by
  rw [isCallingPriorityHigher]
  cases oracle callingPid with
  | none => rfl
  | some cp => rw [h]

/-- An entry that holds the requested type while the strict priority check
for its pid fails makes the per-entry collection fail. -/
theorem getAllClientsEntry_blocked (oracle : Int → Option Int) (callingPid p : Int)
    (type : ResType) :
    ∀ (infos : ResourceInfos), hasResourceTypeInfos type infos = true →
      isCallingPriorityHigher oracle callingPid p = false →
      getAllClientsEntry oracle callingPid p type infos = none
  | [], h, _ => by simp [hasResourceTypeInfos] at h
  | i :: rest, h, hpf => by
    rw [getAllClientsEntry]
    by_cases hHas : hasResourceType type i.resources = true
    · rw [if_pos hHas, if_neg (by simp [hpf])]
    · rw [if_neg hHas]
      have hrest : hasResourceTypeInfos type rest = true := by
        rw [hasResourceTypeInfos, List.any_cons, Bool.or_eq_true] at h
        rcases h with h1 | h2
        · exact absurd h1 hHas
        · exact h2
      exact getAllClientsEntry_blocked oracle callingPid p type rest hrest hpf

/-- A registry containing a holder of the requested type whose pid fails
the strict priority check makes the collect-all procedure fail. -/
theorem getAllClients_blocked (oracle : Int → Option Int) (callingPid : Int)
    (type : ResType) :
    ∀ (m : PidResourceInfosMap) (p : Int) (infos : ResourceInfos),
      (p, infos) ∈ m → hasResourceTypeInfos type infos = true →
      isCallingPriorityHigher oracle callingPid p = false →
      getAllClients oracle callingPid type m = none
  | [], p, infos, hmem, _, _ => by simp at hmem
  | (q, qinfos) :: rest, p, infos, hmem, hHas, hpf => by
    rw [getAllClients]
    rcases List.mem_cons.mp hmem with heq | htail
    · cases heq
      rw [getAllClientsEntry_blocked oracle callingPid q type qinfos hHas hpf]
    · have hnone := getAllClients_blocked oracle callingPid type rest p infos htail hHas hpf
      cases hq : getAllClientsEntry oracle callingPid q type qinfos with
      | none => rfl
      | some here => rw [hnone]

/-- A failing collection for a type triggered by one requested resource
makes the first-pass contribution of that resource fail. -/
theorem phase1Resource_blocked (oracle : Int → Option Int) (pol : PolicyState)
    (callingPid : Int) (rt t : ResType) (m : PidResourceInfosMap)
    (htrig : triggersCollect pol rt t = true)
    (hnone : getAllClients oracle callingPid t m = none) :
    phase1Resource oracle pol callingPid rt m = none := by
  rw [triggersCollect] at htrig
  simp only [Bool.or_eq_true, Bool.and_eq_true, beq_iff_eq, Bool.not_eq_true'] at htrig
  rcases htrig with (⟨⟨hrt, hflag⟩, ht⟩ | ⟨⟨hrt, hflag⟩, ht⟩) | ⟨⟨hrt, hflag⟩, ht⟩
  · subst hrt
    subst ht
    simp [phase1Resource, hflag, hnone]
  · subst hrt
    subst ht
    cases h1 : (if pol.mSupportsMultipleSecureCodecs then some []
        else getAllClients oracle callingPid .secureCodec m) with
    | none => simp [phase1Resource, h1]
    | some a => simp [phase1Resource, h1, hflag, hnone]
  · subst hrt
    subst ht
    simp [phase1Resource, hflag, hnone]

/-- A failing first-pass contribution of any requested resource makes the
whole first pass fail. -/
theorem phase1_failed (oracle : Int → Option Int) (pol : PolicyState) (callingPid : Int) :
    ∀ (resources : List MediaResource) (m : PidResourceInfosMap) (r : MediaResource),
      r ∈ resources →
      phase1Resource oracle pol callingPid r.mType m = none →
      phase1 oracle pol callingPid resources m = none
  | [], _, r, hr, _ => by simp at hr
  | x :: rest, m, r, hr, hnone => by
    rw [phase1]
    rcases List.mem_cons.mp hr with heq | htail
    · subst heq
      rw [hnone]
    · have hrec := phase1_failed oracle pol callingPid rest m r htail hnone
      cases h1 : phase1Resource oracle pol callingPid x.mType m with
      | none => rfl
      | some a => rw [hrec]

/-- The lowest-priority loop ignores an entry whose pid's priority the
oracle cannot read: removing the entry leaves the loop's result
unchanged. -/
theorem getLowestPriorityPidLoop_skip (oracle : Int → Option Int) (t : ResType)
    (p : Int) (infos : ResourceInfos) (h : oracle p = none) :
    ∀ (m1 m2 : PidResourceInfosMap) (acc : Int × Int),
      getLowestPriorityPidLoop oracle t (m1 ++ (p, infos) :: m2) acc =
        getLowestPriorityPidLoop oracle t (m1 ++ m2) acc
  | [], m2, acc => by
    rw [List.nil_append, List.nil_append, getLowestPriorityPidLoop]
    by_cases hEmp : infos.isEmpty = true
    · rw [if_pos hEmp]
    · rw [if_neg hEmp]
      by_cases hHas : hasResourceTypeInfos t infos = true
      · rw [if_pos hHas, h]
      · rw [if_neg hHas]
  | (q, qi) :: m1, m2, acc => by
    rw [List.cons_append, List.cons_append, getLowestPriorityPidLoop,
      getLowestPriorityPidLoop]
    by_cases hEmp : qi.isEmpty = true
    · rw [if_pos hEmp, if_pos hEmp]
      exact getLowestPriorityPidLoop_skip oracle t p infos h m1 m2 acc
    · rw [if_neg hEmp, if_neg hEmp]
      by_cases hHas : hasResourceTypeInfos t qi = true
      · rw [if_pos hHas, if_pos hHas]
        cases hq : oracle q with
        | none => exact getLowestPriorityPidLoop_skip oracle t p infos h m1 m2 acc
        | some tp =>
          show (if acc.1 = -1 ∨ tp > acc.2 then
                  getLowestPriorityPidLoop oracle t (m1 ++ (p, infos) :: m2) (q, tp)
                else getLowestPriorityPidLoop oracle t (m1 ++ (p, infos) :: m2) acc) =
              (if acc.1 = -1 ∨ tp > acc.2 then
                  getLowestPriorityPidLoop oracle t (m1 ++ m2) (q, tp)
                else getLowestPriorityPidLoop oracle t (m1 ++ m2) acc)
          by_cases hcond : acc.1 = -1 ∨ tp > acc.2
          · rw [if_pos hcond, if_pos hcond]
            exact getLowestPriorityPidLoop_skip oracle t p infos h m1 m2 (q, tp)
          · rw [if_neg hcond, if_neg hcond]
            exact getLowestPriorityPidLoop_skip oracle t p infos h m1 m2 acc
      · rw [if_neg hHas, if_neg hHas]
        exact getLowestPriorityPidLoop_skip oracle t p infos h m1 m2 acc

/-- A pid whose priority the oracle cannot read is invisible to the
lowest-priority-pid search. -/
theorem getLowestPriorityPid_skip (oracle : Int → Option Int) (t : ResType)
    (p : Int) (infos : ResourceInfos) (h : oracle p = none)
    (m1 m2 : PidResourceInfosMap) :
    getLowestPriorityPid oracle t (m1 ++ (p, infos) :: m2) =
      getLowestPriorityPid oracle t (m1 ++ m2) := by
  simp only [getLowestPriorityPid, getLowestPriorityPidLoop_skip oracle t p infos h]

/-! Claim theorems. -/

/-- Claim C5 (amended): `getBiggestClient` fails exactly when the target
pid is absent from the registry or no resource of the requested type with a
strictly positive value exists within it; otherwise it returns the client
of the first record whose single largest resource of the type attains the
entry-wide maximum, so a later client overtakes only with a strictly
greater value and equal values retain the earlier winner. -/
theorem getBiggestClient_characterization (pid : Int) (type : ResType)
    (m : PidResourceInfosMap) :
    getBiggestClient pid type m =
      match mapFind pid m with
      | none => none
      | some infos =>
          if maxInfosRes type infos = 0 then none
          else (infos.find? (fun i => maxListRes type i.resources == maxInfosRes type infos)).map
            (fun i => i.client) :=
  getBiggestClient_eq pid type m

/-- Counterexample to claim C5 as stated: within pid 5 a resource of the
requested type is present (with value 0), yet `getBiggestClient` fails, so
failure is not equivalent to the absence of a resource of the type. -/
theorem getBiggestClient_zero_value_example :
    hasResourceTypeInfos .graphicMemory [⟨3, 9, [⟨.graphicMemory, 0⟩]⟩] = true ∧
    mapFind 5 [(5, [⟨3, 9, [⟨.graphicMemory, 0⟩]⟩])] =
      some [⟨3, 9, [⟨.graphicMemory, 0⟩]⟩] ∧
    getBiggestClient 5 .graphicMemory [(5, [⟨3, 9, [⟨.graphicMemory, 0⟩]⟩])] = none := by
  decide

/-- Claim C2: the second pass (per-resource selection, handling only
`GraphicMemory`) runs exactly when the first pass produced an empty victim
list; when the first pass yields victims, the final victim list is exactly
the first-pass list, so no `GraphicMemory` holder is added even when
`GraphicMemory` is among the requested resources; a failed first pass also
suppresses the second pass. -/
theorem phase2_iff_phase1_empty (oracle : Int → Option Int) (pol : PolicyState)
    (callingPid : Int) (resources : List MediaResource) (m : PidResourceInfosMap) :
    (∀ cs, phase1 oracle pol callingPid resources m = some cs → cs ≠ [] →
      reclaimVictims oracle pol callingPid resources m = some cs) ∧
    (phase1 oracle pol callingPid resources m = some [] →
      reclaimVictims oracle pol callingPid resources m =
        phase2 oracle callingPid resources m) ∧
    (phase1 oracle pol callingPid resources m = none →
      reclaimVictims oracle pol callingPid resources m = none) := by
  refine ⟨?_, ?_, ?_⟩
  · intro cs h hne
    cases cs with
    | nil => exact absurd rfl hne
    | cons c rest => unfold reclaimVictims; rw [h]; rfl
  · intro h
    unfold reclaimVictims; rw [h]; rfl
  · intro h
    unfold reclaimVictims; rw [h]

/-- Witness for claim C2, the both-policies-off scenario: pid 100 holds a
secure codec, pid 200 holds graphic memory, the caller requests both; the
first pass yields the secure holder and the graphic-memory holder is not
added. -/
theorem phase2_iff_phase1_empty_witness :
    reclaimVictims
      (fun p => if p = 300 then some 10 else if p = 100 then some 30
                else if p = 200 then some 30 else none)
      ⟨false, false⟩ 300 [⟨.secureCodec, 1⟩, ⟨.graphicMemory, 1⟩]
      [(100, [⟨1, 7, [⟨.secureCodec, 1⟩]⟩]), (200, [⟨3, 9, [⟨.graphicMemory, 1000⟩]⟩])] =
      some [7] :=
  (phase2_iff_phase1_empty _ _ _ _ _).1 [7] (by decide) (by decide)

/-- Claim C6: `reclaimResource` returns `false` when the victim computation
fails or yields no victim, and otherwise invokes the callbacks in insertion
order, stopping right after the first failing callback; the call returns
`true` exactly when at least one callback was invoked and every invoked
callback succeeded. -/
theorem reclaimResource_callback_semantics (oracle : Int → Option Int) (pol : PolicyState)
    (cb : Client → Bool) (callingPid : Int) (resources : List MediaResource)
    (m : PidResourceInfosMap) :
    reclaimResource oracle pol cb callingPid resources m =
      (match reclaimVictims oracle pol callingPid resources m with
       | none => (false, [])
       | some cs =>
           if cs.isEmpty then (false, [])
           else (cs.all cb, cs.takeWhile cb ++ (cs.dropWhile cb).take 1)) ∧
    ((reclaimResource oracle pol cb callingPid resources m).1 = true ↔
      ((reclaimResource oracle pol cb callingPid resources m).2 ≠ [] ∧
       (reclaimResource oracle pol cb callingPid resources m).2.all cb = true)) := by
  constructor
  · unfold reclaimResource
    cases reclaimVictims oracle pol callingPid resources m with
    | none => rfl
    | some cs =>
      cases cs with
      | nil => rfl
      | cons c rest => simp [runCallbacks_eq]
  · unfold reclaimResource
    cases reclaimVictims oracle pol callingPid resources m with
    | none => simp
    | some cs =>
      cases cs with
      | nil => simp
      | cons c rest =>
        simp only [List.isEmpty_cons, Bool.false_eq_true, if_false, runCallbacks_eq]
        by_cases hall : (c :: rest).all cb = true
        · obtain ⟨ht, hd⟩ := allTrue_take_drop cb (c :: rest) hall
          simp [hall, ht, hd]
        · have hall' : (c :: rest).all cb = false := by
            simpa using hall
          obtain ⟨x, hx, hxf⟩ := allFalse_first_fail cb (c :: rest) hall'
          simp [hall', hx, List.all_append, hxf]

/-- Claim C8: policy entries with unknown keys leave both flags unchanged,
a recognized key overwrites the named flag with `value != 0`, entries with
distinct keys commute, repeated entries with the same key are last-write-
wins, and both flags start `true` at construction. -/
theorem config_policy_semantics (s : String) (v : Nat) (st : PolicyState)
    (p q : MediaResourcePolicy) :
    initPolicyState = ⟨true, true⟩ ∧
    config [⟨.unknown s, v⟩] st = st ∧
    config [⟨.supportsMultipleSecureCodecs, v⟩] st =
      ⟨v != 0, st.mSupportsSecureWithNonSecureCodec⟩ ∧
    config [⟨.supportsSecureWithNonSecureCodec, v⟩] st =
      ⟨st.mSupportsMultipleSecureCodecs, v != 0⟩ ∧
    (p.mType ≠ q.mType → config [p, q] st = config [q, p] st) ∧
    (p.mType = q.mType → config [p, q] st = config [q] st) := by
  refine ⟨rfl, rfl, rfl, rfl, ?_, ?_⟩
  · intro hne
    obtain ⟨pt, pv⟩ := p
    obtain ⟨qt, qv⟩ := q
    cases pt <;> cases qt <;> simp_all [config, configOne]
  · intro heq
    obtain ⟨pt, pv⟩ := p
    obtain ⟨qt, qv⟩ := q
    cases pt <;> cases qt <;> simp_all [config, configOne]

/-- Witness for claim C8: setting the two distinct policy keys commutes on
the freshly constructed state. -/
theorem config_policy_semantics_witness :
    config [⟨.supportsMultipleSecureCodecs, 1⟩, ⟨.supportsSecureWithNonSecureCodec, 0⟩]
        initPolicyState =
      config [⟨.supportsSecureWithNonSecureCodec, 0⟩, ⟨.supportsMultipleSecureCodecs, 1⟩]
        initPolicyState :=
  (config_policy_semantics "" 0 initPolicyState ⟨.supportsMultipleSecureCodecs, 1⟩
    ⟨.supportsSecureWithNonSecureCodec, 0⟩).2.2.2.2.1 (by decide)

/-- Claim C9: a request whose resource list triggers no first-pass rule and
contains no `GraphicMemory` — in particular an empty list — makes
`reclaimResource` return `false` with no callback invoked. -/
theorem reclaim_no_trigger_false (oracle : Int → Option Int) (pol : PolicyState)
    (cb : Client → Bool) (callingPid : Int) (resources : List MediaResource)
    (m : PidResourceInfosMap)
    (h : ∀ r ∈ resources,
      (r.mType = .secureCodec → pol.mSupportsMultipleSecureCodecs = true ∧
        pol.mSupportsSecureWithNonSecureCodec = true) ∧
      (r.mType = .nonSecureCodec → pol.mSupportsSecureWithNonSecureCodec = true) ∧
      r.mType ≠ .graphicMemory) :
    reclaimResource oracle pol cb callingPid resources m = (false, []) := by
  have h1 := phase1_benign oracle pol callingPid resources m
    (fun r hr => ⟨(h r hr).1, (h r hr).2.1⟩)
  have h2 := phase2_no_graphic oracle callingPid resources m
    (fun r hr => (h r hr).2.2)
  simp [reclaimResource, reclaimVictims, h1, h2]

/-- Witness for claim C9: a secure-codec request under fully permissive
flags selects no victim and the reclaim returns `false`. -/
theorem reclaim_no_trigger_false_witness :
    reclaimResource (fun _ => none) ⟨true, true⟩ (fun _ => true) 42
      [⟨.secureCodec, 5⟩] [] = (false, []) :=
  reclaim_no_trigger_false _ _ _ _ _ _ (by decide)

/-- Claim C1: every victim selected by the locked section of
`reclaimResource` belongs to a process entry whose priority value was read
successfully and is strictly greater than the caller's priority value, so
no callback of a holder at priority less than or equal to the caller is
ever invoked. -/
theorem reclaimVictims_strict_priority (oracle : Int → Option Int) (pol : PolicyState)
    (callingPid : Int) (resources : List MediaResource) (m : PidResourceInfosMap)
    (cs : List Client) (h : reclaimVictims oracle pol callingPid resources m = some cs) :
    ∀ c ∈ cs, ∃ p infos, (p, infos) ∈ m ∧ (∃ i ∈ infos, i.client = c) ∧
      ∃ cp pp, oracle callingPid = some cp ∧ oracle p = some pp ∧ cp < pp := by
  have key : ∀ c ∈ cs, ∃ p infos, (p, infos) ∈ m ∧ (∃ i ∈ infos, i.client = c) ∧
      isCallingPriorityHigher oracle callingPid p = true := by
    rw [reclaimVictims] at h
    split at h
    · cases h
    · rename_i l hphase1
      by_cases hemp : l.isEmpty = true
      · rw [if_pos hemp] at h
        exact phase2_mem oracle callingPid resources m cs h
      · rw [if_neg hemp] at h
        cases h
        exact phase1_mem oracle pol callingPid resources m _ hphase1
  intro c hc
  obtain ⟨p, infos, hm, hex, hprio⟩ := key c hc
  refine ⟨p, infos, hm, hex, ?_⟩
  rw [isCallingPriorityHigher] at hprio
  split at hprio
  · cases hprio
  · rename_i cp hcp
    split at hprio
    · cases hprio
    · rename_i pp hpp
      exact ⟨cp, pp, hcp, hpp, of_decide_eq_true hprio⟩

/-- Witness for claim C1: the secure-conflict scenario selects client 7 of
pid 100 (priority 20) for caller 200 (priority 10). -/
theorem reclaimVictims_strict_priority_witness :
    ∃ p infos,
      (p, infos) ∈ ([(100, [⟨1, 7, [⟨.secureCodec, 1⟩]⟩])] : PidResourceInfosMap) ∧
      (∃ i ∈ infos, i.client = 7) ∧
      ∃ cp pp,
        ((fun q => if q = 200 then some 10 else if q = 100 then some 20 else none) :
          Int → Option Int) 200 = some cp ∧
        ((fun q => if q = 200 then some 10 else if q = 100 then some 20 else none) :
          Int → Option Int) p = some pp ∧
        cp < pp :=
  reclaimVictims_strict_priority
    (fun q : Int => if q = 200 then some 10 else if q = 100 then some 20 else none)
    ⟨false, true⟩ 200 [⟨.secureCodec, 1⟩] [(100, [⟨1, 7, [⟨.secureCodec, 1⟩]⟩])]
    [7] (by decide) 7 (by decide)

/-- Claim C10: a client of the calling process is never selected as a
victim of its own reclaim: the strict priority check of a pid against
itself always fails, a caller holding a resource of a collected type makes
the whole reclaim return `false` with no callback invoked, and a
successful second-pass selection always picks a pid different from the
caller. -/
theorem caller_not_victim (oracle : Int → Option Int) (pol : PolicyState)
    (cb : Client → Bool) (callingPid : Int) (resources : List MediaResource)
    (m : PidResourceInfosMap) (t : ResType) (cinfos : ResourceInfos) :
    isCallingPriorityHigher oracle callingPid callingPid = false ∧
    ((callingPid, cinfos) ∈ m → hasResourceTypeInfos t cinfos = true →
      (∃ r ∈ resources, triggersCollect pol r.mType t = true) →
      reclaimResource oracle pol cb callingPid resources m = (false, [])) ∧
    (∀ c, getLowestPriorityBiggestClient oracle callingPid t m = some c →
      ∃ lp, getLowestPriorityPid oracle t m = some lp ∧ lp.1 ≠ callingPid) := by
  have part1 : isCallingPriorityHigher oracle callingPid callingPid = false := by
    rw [isCallingPriorityHigher]
    cases oracle callingPid with
    | none => rfl
    | some cp => exact decide_eq_false (lt_irrefl cp)
  refine ⟨part1, ?_, ?_⟩
  · rintro hmem hhas ⟨r, hr, htrig⟩
    have hblock := getAllClients_blocked oracle callingPid t m callingPid cinfos
      hmem hhas part1
    have hres := phase1Resource_blocked oracle pol callingPid r.mType t m htrig hblock
    have hp1 := phase1_failed oracle pol callingPid resources m r hr hres
    simp [reclaimResource, reclaimVictims, hp1]
  · intro c h
    rw [getLowestPriorityBiggestClient] at h
    split at h
    · cases h
    · rename_i cp hcp
      split at h
      · cases h
      · rename_i lp hlp
        split at h
        · cases h
        · rename_i hguard
          refine ⟨lp, hlp, ?_⟩
          intro hEq
          have horc := getLowestPriorityPid_oracle oracle t m lp hlp
          rw [hEq, hcp] at horc
          injection horc with hcpe
          omega

/-- Witness for claim C10: the caller's own process holds the only secure
codec; with multiple secure codecs disallowed, its reclaim fails with no
callback. -/
theorem caller_not_victim_witness :
    reclaimResource (fun q : Int => if q = 100 then some 20 else none) ⟨false, true⟩
      (fun _ => true) 100 [⟨.secureCodec, 2⟩]
      [(100, [⟨1, 7, [⟨.secureCodec, 1⟩]⟩])] = (false, []) :=
  (caller_not_victim (fun q : Int => if q = 100 then some 20 else none) ⟨false, true⟩
    (fun _ => true) 100 [⟨.secureCodec, 2⟩] [(100, [⟨1, 7, [⟨.secureCodec, 1⟩]⟩])]
    .secureCodec [⟨1, 7, [⟨.secureCodec, 1⟩]⟩]).2.1 (by decide) (by decide) (by decide)

/-- Claim C3 (amended): in the second pass a candidate pid whose priority
the oracle cannot read is skipped and invisible to the search (removing its
entry leaves the result unchanged, and a selected pid always has a
readable priority), but in the first pass a holder of the collected type
whose priority cannot be read blocks the collection, failing the
reclaim. -/
theorem oracle_failure_semantics (oracle : Int → Option Int) (callingPid : Int)
    (t : ResType) (m1 m2 m : PidResourceInfosMap) (p : Int) (infos : ResourceInfos) :
    (oracle p = none → hasResourceTypeInfos t infos = true →
      getAllClients oracle callingPid t (m1 ++ (p, infos) :: m2) = none) ∧
    (oracle p = none →
      getLowestPriorityPid oracle t (m1 ++ (p, infos) :: m2) =
        getLowestPriorityPid oracle t (m1 ++ m2)) ∧
    (∀ lp, getLowestPriorityPid oracle t m = some lp → oracle lp.1 = some lp.2) := by
  refine ⟨?_, ?_, ?_⟩
  · intro hp hhas
    exact getAllClients_blocked oracle callingPid t _ p infos
      (List.mem_append.mpr (Or.inr (List.mem_cons_self _ _))) hhas
      (isCallingPriorityHigher_oracle_none oracle callingPid p hp)
  · intro hp
    exact getLowestPriorityPid_skip oracle t p infos hp m1 m2
  · intro lp hlp
    exact getLowestPriorityPid_oracle oracle t m lp hlp

/-- Witness for claim C3: under an always-failing oracle, the entry of pid
5 is invisible to the lowest-priority search. -/
theorem oracle_failure_semantics_witness :
    getLowestPriorityPid (fun _ : Int => (none : Option Int)) .graphicMemory
        ([] ++ (5, [⟨1, 7, [⟨.graphicMemory, 10⟩]⟩]) ::
          [(6, [⟨2, 8, [⟨.graphicMemory, 3⟩]⟩])]) =
      getLowestPriorityPid (fun _ : Int => (none : Option Int)) .graphicMemory
        ([] ++ [(6, [⟨2, 8, [⟨.graphicMemory, 3⟩]⟩])]) :=
  (oracle_failure_semantics (fun _ : Int => (none : Option Int)) 0 .graphicMemory []
    [(6, [⟨2, 8, [⟨.graphicMemory, 3⟩]⟩])] [] 5 [⟨1, 7, [⟨.graphicMemory, 10⟩]⟩]).2.1 rfl

/-- Counterexample to claim C3 as stated: pid 100 is the only holder of the
requested secure codec; with its priority unreadable the reclaim returns
`false`, while the identical call succeeds once pid 100's priority becomes
readable, so an oracle failure for a candidate pid is a blocker in the
first pass rather than being skipped. -/
theorem oracle_failure_not_skipped :
    reclaimResource (fun q : Int => if q = 200 then some 10 else none) ⟨false, true⟩
      (fun _ => true) 200 [⟨.secureCodec, 1⟩]
      [(100, [⟨1, 7, [⟨.secureCodec, 1⟩]⟩])] = (false, []) ∧
    reclaimResource
      (fun q : Int => if q = 200 then some 10 else if q = 100 then some 20 else none)
      ⟨false, true⟩ (fun _ => true) 200 [⟨.secureCodec, 1⟩]
      [(100, [⟨1, 7, [⟨.secureCodec, 1⟩]⟩])] = (true, [7]) := by
  decide

/-- Adding a fresh client id appends a new record at the end of the
entry. -/
theorem addToInfos_fresh (cid : Int) (hdl : Client) (rs : List MediaResource) :
    ∀ (infos : ResourceInfos), (∀ i ∈ infos, i.clientId ≠ cid) →
      addToInfos cid hdl rs infos = infos ++ [⟨cid, hdl, rs⟩]
  | [], _ => by rw [addToInfos]; rfl
  | i :: rest, h => by
    rw [addToInfos, if_neg (h i (List.mem_cons_self _ _)),
      addToInfos_fresh cid hdl rs rest (fun x hx => h x (List.mem_cons_of_mem _ hx))]
    rfl

/-- Removing an absent client id from one entry is a no-op that reports no
match. -/
theorem removeFromInfos_notfound (cid : Int) :
    ∀ (infos : ResourceInfos), (∀ i ∈ infos, i.clientId ≠ cid) →
      removeFromInfos cid infos = (infos, false)
  | [], _ => rfl
  | i :: rest, h => by
    rw [removeFromInfos, if_neg (h i (List.mem_cons_self _ _)),
      removeFromInfos_notfound cid rest (fun x hx => h x (List.mem_cons_of_mem _ hx))]

/-- Removing a client id that occurs only in the appended final record
restores the original entry and reports the match. -/
theorem removeFromInfos_append (cid : Int) (hdl : Client) (rs : List MediaResource) :
    ∀ (infos : ResourceInfos), (∀ i ∈ infos, i.clientId ≠ cid) →
      removeFromInfos cid (infos ++ [⟨cid, hdl, rs⟩]) = (infos, true)
  | [], _ => by
    rw [List.nil_append, removeFromInfos, if_pos rfl]
    rfl
  | i :: rest, h => by
    rw [List.cons_append, removeFromInfos, if_neg (h i (List.mem_cons_self _ _)),
      removeFromInfos_append cid hdl rs rest (fun x hx => h x (List.mem_cons_of_mem _ hx))]

/-- A key absent from every entry is not found. -/
theorem mapFind_eq_none (pid : Int) :
    ∀ (m : PidResourceInfosMap), (∀ e ∈ m, e.1 ≠ pid) → mapFind pid m = none
  | [], _ => rfl
  | (p, is) :: rest, h => by
    rw [mapFind, if_neg (h (p, is) (List.mem_cons_self _ _))]
    exact mapFind_eq_none pid rest (fun x hx => h x (List.mem_cons_of_mem _ hx))

/-- An entry whose membership scan for a client id is negative contains no
record with that id. -/
theorem entryFresh_of_false (cid : Int) (infos : ResourceInfos)
    (h : infos.any (fun i => i.clientId == cid) = false) :
    ∀ i ∈ infos, i.clientId ≠ cid := by
  intro i hi hEq
  rw [List.any_eq_false] at h
  exact h i hi (by simp [hEq])

/-- A client id absent from the whole registry is absent from each
entry. -/
theorem clientIdInMap_false_mem (cid : Int) (m : PidResourceInfosMap)
    (h : clientIdInMap cid m = false) (p : Int) (infos : ResourceInfos)
    (hmem : (p, infos) ∈ m) : ∀ i ∈ infos, i.clientId ≠ cid := by
  rw [clientIdInMap, List.any_eq_false] at h
  have h2 := h (p, infos) hmem
  have h3 : infos.any (fun i => i.clientId == cid) = false := by
    cases hx : infos.any (fun i => i.clientId == cid) with
    | false => rfl
    | true => exact absurd hx h2
  exact entryFresh_of_false cid infos h3

/-- Claim C7 (amended): in a sorted registry where the client id does not
yet occur, `addResource` immediately followed by `removeResource` of that
id restores the registry exactly, except that when the pid was absent a
fresh empty process entry for it remains. -/
theorem add_remove_roundtrip (pid cid : Int) (hdl : Client) (rs : List MediaResource) :
    ∀ (m : PidResourceInfosMap), SortedKeys m → clientIdInMap cid m = false →
      removeResource cid (addResource pid cid hdl rs m) =
        (if (mapFind pid m).isSome then m else mapAdd pid [] m)
  | [], _, _ => by
    simp [addResource, mapFind, mapAdd, addToInfos, removeResource, removeFromInfos]
  | (p, is) :: rest, hsort, hfresh => by
    obtain ⟨hkeys, hsortRest⟩ := List.pairwise_cons.mp hsort
    have hfreshHead : ∀ i ∈ is, i.clientId ≠ cid :=
      clientIdInMap_false_mem cid ((p, is) :: rest) hfresh p is (List.mem_cons_self _ _)
    have hfreshRest : clientIdInMap cid rest = false := by
      rw [clientIdInMap, List.any_cons, Bool.or_eq_false_iff] at hfresh
      exact hfresh.2
    rcases lt_trichotomy pid p with hlt | heq | hgt
    · have hfind : mapFind pid ((p, is) :: rest) = none := by
        rw [mapFind, if_neg (show ¬ p = pid by omega)]
        exact mapFind_eq_none pid rest (fun x hx => by have := hkeys x hx; omega)
      rw [addResource, hfind]
      simp only [Option.getD_none, Option.isSome_none, Bool.false_eq_true, if_false]
      rw [addToInfos, mapAdd, if_pos hlt, removeResource, removeFromInfos,
        if_pos (show (⟨cid, hdl, rs⟩ : ResourceInfo).clientId = cid from rfl)]
      rw [mapAdd, if_pos hlt]
      rfl
    · subst heq
      have hfind : mapFind pid ((pid, is) :: rest) = some is := by
        rw [mapFind, if_pos rfl]
      rw [addResource, hfind]
      simp only [Option.getD_some, Option.isSome_some, if_true]
      rw [addToInfos_fresh cid hdl rs is hfreshHead, mapAdd, if_neg (lt_irrefl pid),
        if_pos rfl, removeResource, removeFromInfos_append cid hdl rs is hfreshHead]
      rfl
    · have hfind : mapFind pid ((p, is) :: rest) = mapFind pid rest := by
        rw [mapFind, if_neg (show ¬ p = pid by omega)]
      rw [addResource, hfind, mapAdd, if_neg (show ¬ pid < p by omega),
        if_neg (show ¬ pid = p by omega), removeResource,
        removeFromInfos_notfound cid is hfreshHead]
      show (p, is) :: removeResource cid
          (mapAdd pid (addToInfos cid hdl rs ((mapFind pid rest).getD [])) rest) = _
      have hrec := add_remove_roundtrip pid cid hdl rs rest hsortRest hfreshRest
      rw [addResource] at hrec
      by_cases hsome : (mapFind pid rest).isSome = true
      · rw [if_pos hsome] at hrec
        rw [hrec, if_pos hsome]
      · rw [if_neg hsome] at hrec
        rw [hrec, if_neg hsome, mapAdd, if_neg (show ¬ pid < p by omega),
          if_neg (show ¬ pid = p by omega)]

/-- Witness for claim C7: adding fresh client 7 under fresh pid 2 and
removing it restores the registry, leaving an empty entry for pid 2. -/
theorem add_remove_roundtrip_witness :
    removeResource 7 (addResource 2 7 9 [⟨.secureCodec, 1⟩]
        [(1, [⟨5, 3, [⟨.secureCodec, 1⟩]⟩])]) =
      (if (mapFind 2 [(1, [⟨5, 3, [⟨.secureCodec, 1⟩]⟩])]).isSome
        then [(1, [⟨5, 3, [⟨.secureCodec, 1⟩]⟩])]
        else mapAdd 2 [] [(1, [⟨5, 3, [⟨.secureCodec, 1⟩]⟩])]) :=
  add_remove_roundtrip 2 7 9 [⟨.secureCodec, 1⟩] [(1, [⟨5, 3, [⟨.secureCodec, 1⟩]⟩])]
    (by simp [SortedKeys]) (by decide)

/-- Counterexample to claim C7 as stated: when the client id being added
already exists in the registry, the round trip destroys the pre-existing
registration instead of restoring the pre-add state — client id 7 occurs
in the registry before the add and is gone afterwards. -/
theorem add_remove_roundtrip_refuted :
    clientIdInMap 7 [(1, [⟨7, 9, [⟨.secureCodec, 1⟩]⟩])] = true ∧
    clientIdInMap 7 (removeResource 7 (addResource 1 7 9 [⟨.secureCodec, 1⟩]
      [(1, [⟨7, 9, [⟨.secureCodec, 1⟩]⟩])])) = false := by
  decide

/-- Entries of the updated map are the fresh entry or old entries. -/
theorem mapAdd_mem (pid : Int) (v : ResourceInfos) :
    ∀ (m : PidResourceInfosMap) (x : Int × ResourceInfos),
      x ∈ mapAdd pid v m → x = (pid, v) ∨ x ∈ m
  | [], x, hx => by
    rw [mapAdd] at hx
    exact Or.inl (List.mem_singleton.mp hx)
  | (p, is) :: rest, x, hx => by
    rw [mapAdd] at hx
    by_cases h1 : pid < p
    · rw [if_pos h1] at hx
      rcases List.mem_cons.mp hx with h | h
      · exact Or.inl h
      · exact Or.inr h
    · rw [if_neg h1] at hx
      by_cases h2 : pid = p
      · rw [if_pos h2] at hx
        rcases List.mem_cons.mp hx with h | h
        · exact Or.inl h
        · exact Or.inr (List.mem_cons_of_mem _ h)
      · rw [if_neg h2] at hx
        rcases List.mem_cons.mp hx with h | h
        · exact Or.inr (h ▸ List.mem_cons_self _ _)
        · rcases mapAdd_mem pid v rest x h with h' | h'
          · exact Or.inl h'
          · exact Or.inr (List.mem_cons_of_mem _ h')

/-- Sorted insertion preserves the strictly increasing key order. -/
theorem mapAdd_sorted (pid : Int) (v : ResourceInfos) :
    ∀ (m : PidResourceInfosMap), SortedKeys m → SortedKeys (mapAdd pid v m)
  | [], _ => by
    rw [mapAdd]
    exact List.pairwise_singleton _ _
  | (p, is) :: rest, hs => by
    obtain ⟨hkeys, hrest⟩ := List.pairwise_cons.mp hs
    rw [mapAdd]
    by_cases h1 : pid < p
    · rw [if_pos h1]
      refine List.pairwise_cons.mpr ⟨?_, hs⟩
      intro b hb
      rcases List.mem_cons.mp hb with rfl | hb'
      · exact h1
      · have := hkeys b hb'
        show pid < b.1
        omega
    · rw [if_neg h1]
      by_cases h2 : pid = p
      · rw [if_pos h2]
        refine List.pairwise_cons.mpr ⟨?_, hrest⟩
        intro b hb
        have := hkeys b hb
        show pid < b.1
        omega
      · rw [if_neg h2]
        refine List.pairwise_cons.mpr ⟨?_, mapAdd_sorted pid v rest hrest⟩
        intro b hb
        rcases mapAdd_mem pid v rest b hb with rfl | hb'
        · show p < pid
          omega
        · exact hkeys b hb'

/-- Records surviving the per-entry removal were records of the original
entry. -/
theorem removeFromInfos_subset (cid : Int) :
    ∀ (infos : ResourceInfos) (i : ResourceInfo),
      i ∈ (removeFromInfos cid infos).1 → i ∈ infos
  | [], i, hi => by simp [removeFromInfos] at hi
  | x :: rest, i, hi => by
    rw [removeFromInfos] at hi
    by_cases hx : x.clientId = cid
    · rw [if_pos hx] at hi
      exact List.mem_cons_of_mem _ (removeFromInfos_subset cid rest i hi)
    · rw [if_neg hx] at hi
      rcases List.mem_cons.mp hi with rfl | hi'
      · exact List.mem_cons_self _ _
      · exact List.mem_cons_of_mem _ (removeFromInfos_subset cid rest i hi')

/-- Every entry after a removal stems from an entry of the original
registry with the same pid and a superset of records. -/
theorem removeResource_mem (cid : Int) :
    ∀ (m : PidResourceInfosMap) (x : Int × ResourceInfos), x ∈ removeResource cid m →
      ∃ infos, (x.1, infos) ∈ m ∧ ∀ i ∈ x.2, i ∈ infos
  | [], x, hx => by simp [removeResource] at hx
  | (p, is) :: rest, x, hx => by
    rw [removeResource] at hx
    by_cases hf : (removeFromInfos cid is).2 = true
    · rw [if_pos hf] at hx
      rcases List.mem_cons.mp hx with rfl | hx'
      · exact ⟨is, List.mem_cons_self _ _, fun i hi => removeFromInfos_subset cid is i hi⟩
      · exact ⟨x.2, List.mem_cons_of_mem _ hx', fun i hi => hi⟩
    · rw [if_neg hf] at hx
      rcases List.mem_cons.mp hx with rfl | hx'
      · exact ⟨is, List.mem_cons_self _ _, fun i hi => hi⟩
      · obtain ⟨infos, hmem, hsub⟩ := removeResource_mem cid rest x hx'
        exact ⟨infos, List.mem_cons_of_mem _ hmem, hsub⟩

/-- Removal preserves the strictly increasing key order. -/
theorem removeResource_sorted (cid : Int) :
    ∀ (m : PidResourceInfosMap), SortedKeys m → SortedKeys (removeResource cid m)
  | [], h => h
  | (p, is) :: rest, hs => by
    obtain ⟨hkeys, hrest⟩ := List.pairwise_cons.mp hs
    rw [removeResource]
    by_cases hf : (removeFromInfos cid is).2 = true
    · rw [if_pos hf]
      exact List.pairwise_cons.mpr ⟨fun b hb => hkeys b hb, hrest⟩
    · rw [if_neg hf]
      refine List.pairwise_cons.mpr ⟨?_, removeResource_sorted cid rest hrest⟩
      intro b hb
      obtain ⟨infos, hmem, _⟩ := removeResource_mem cid rest b hb
      exact hkeys (b.1, infos) hmem

/-- A record of the edited entry either carries the added client id or the
client id of a pre-existing record. -/
theorem addToInfos_mem (cid : Int) (hdl : Client) (rs : List MediaResource) :
    ∀ (infos : ResourceInfos) (i : ResourceInfo), i ∈ addToInfos cid hdl rs infos →
      i.clientId = cid ∨ ∃ j ∈ infos, j.clientId = i.clientId
  | [], i, hi => by
    rw [addToInfos] at hi
    rcases List.mem_singleton.mp hi with rfl
    exact Or.inl rfl
  | x :: rest, i, hi => by
    rw [addToInfos] at hi
    by_cases hx : x.clientId = cid
    · rw [if_pos hx] at hi
      rcases List.mem_cons.mp hi with rfl | hi'
      · exact Or.inr ⟨x, List.mem_cons_self _ _, rfl⟩
      · exact Or.inr ⟨i, List.mem_cons_of_mem _ hi', rfl⟩
    · rw [if_neg hx] at hi
      rcases List.mem_cons.mp hi with rfl | hi'
      · exact Or.inr ⟨i, List.mem_cons_self _ _, rfl⟩
      · rcases addToInfos_mem cid hdl rs rest i hi' with h | ⟨j, hj, hji⟩
        · exact Or.inl h
        · exact Or.inr ⟨j, List.mem_cons_of_mem _ hj, hji⟩

/-- An `addResource` whose operation is recorded in the sequence preserves
the provenance invariant. -/
theorem provenance_add (ops : List RMOp) (m : PidResourceInfosMap)
    (pid cid : Int) (hdl : Client) (rs : List MediaResource)
    (hInv : ProvenanceInv ops m) (hop : RMOp.add pid cid hdl rs ∈ ops) :
    ProvenanceInv ops (addResource pid cid hdl rs m) := by
  intro p infos hmem i hi
  rcases mapAdd_mem pid (addToInfos cid hdl rs ((mapFind pid m).getD [])) m
      (p, infos) hmem with heq | hmem'
  · injection heq with h1 h2
    subst h1
    subst h2
    rcases addToInfos_mem cid hdl rs _ i hi with hcid | ⟨j, hj, hji⟩
    · exact ⟨hdl, rs, by rw [hcid]; exact hop⟩
    · cases hf : mapFind p m with
      | none =>
        rw [hf] at hj
        simp at hj
      | some old =>
        rw [hf] at hj
        simp only [Option.getD_some] at hj
        obtain ⟨hdl', rs', hops⟩ := hInv p old (mapFind_mem p m old hf) j hj
        exact ⟨hdl', rs', by rw [← hji]; exact hops⟩
  · exact hInv p infos hmem' i hi

/-- A `removeResource` preserves the provenance invariant. -/
theorem provenance_remove (ops : List RMOp) (m : PidResourceInfosMap) (cid : Int)
    (hInv : ProvenanceInv ops m) : ProvenanceInv ops (removeResource cid m) := by
  intro p infos hmem i hi
  obtain ⟨infos0, hmem0, hsub⟩ := removeResource_mem cid m (p, infos) hmem
  exact hInv p infos0 hmem0 i (hsub i hi)

/-- One mutating operation preserves the strictly increasing key order. -/
theorem applyOp_sorted (m : PidResourceInfosMap) (op : RMOp) (h : SortedKeys m) :
    SortedKeys (applyOp m op) := by
  cases op with
  | add pid cid hdl rs => exact mapAdd_sorted pid _ m h
  | remove cid => exact removeResource_sorted cid m h

/-- Folding a suffix of the operation sequence preserves sortedness and
provenance. -/
theorem runOps_inv (ops0 : List RMOp) :
    ∀ (ops : List RMOp) (m : PidResourceInfosMap),
      SortedKeys m → ProvenanceInv ops0 m → (∀ o ∈ ops, o ∈ ops0) →
      SortedKeys (ops.foldl applyOp m) ∧ ProvenanceInv ops0 (ops.foldl applyOp m)
  | [], _, hs, hp, _ => ⟨hs, hp⟩
  | o :: rest, m, hs, hp, hsub => by
    rw [List.foldl_cons]
    refine runOps_inv ops0 rest (applyOp m o) (applyOp_sorted m o hs) ?_
      (fun x hx => hsub x (List.mem_cons_of_mem _ hx))
    cases o with
    | add pid cid hdl rs =>
      exact provenance_add ops0 m pid cid hdl rs hp (hsub _ (List.mem_cons_self _ _))
    | remove cid => exact provenance_remove ops0 m cid hp

/-- An entry reported to contain a client id has a record with that id. -/
theorem entryHasClientId_exists (cid : Int) (e : Int × ResourceInfos)
    (h : entryHasClientId cid e = true) : ∃ i ∈ e.2, i.clientId = cid := by
  rw [entryHasClientId, List.any_eq_true] at h
  obtain ⟨i, hi, hic⟩ := h
  exact ⟨i, hi, by simpa using hic⟩

/-- In a sorted registry whose records all stem from a pid-consistent
operation sequence, no client id occurs in two process entries. -/
theorem sorted_provenance_count (ops : List RMOp) (m : PidResourceInfosMap) (cid : Int)
    (hs : SortedKeys m) (hp : ProvenanceInv ops m)
    (hcons : opsClientPidConsistent ops = true) :
    entriesWithClientId cid m ≤ 1 := by
  rw [entriesWithClientId]
  cases hfil : m.filter (entryHasClientId cid) with
  | nil => simp
  | cons a tail =>
    cases tail with
    | nil => simp
    | cons b tail2 =>
      exfalso
      have hsubl : List.Sublist (m.filter (entryHasClientId cid)) m :=
        List.filter_sublist m
      have hpair : List.Pairwise (fun x y => x.1 < y.1)
          (m.filter (entryHasClientId cid)) :=
        List.Pairwise.sublist hsubl hs
      have hamem : a ∈ m.filter (entryHasClientId cid) := by
        rw [hfil]
        exact List.mem_cons_self _ _
      have hbmem : b ∈ m.filter (entryHasClientId cid) := by
        rw [hfil]
        exact List.mem_cons_of_mem _ (List.mem_cons_self _ _)
      rw [hfil] at hpair
      have hab : a.1 < b.1 := (List.pairwise_cons.mp hpair).1 b (List.mem_cons_self _ _)
      have ham : a ∈ m := hsubl.subset hamem
      have hbm : b ∈ m := hsubl.subset hbmem
      obtain ⟨ia, hia, hcia⟩ := entryHasClientId_exists cid a (List.of_mem_filter hamem)
      obtain ⟨ib, hib, hcib⟩ := entryHasClientId_exists cid b (List.of_mem_filter hbmem)
      obtain ⟨h1, r1, hop1⟩ := hp a.1 a.2 ham ia hia
      obtain ⟨h2, r2, hop2⟩ := hp b.1 b.2 hbm ib hib
      rw [hcia] at hop1
      rw [hcib] at hop2
      rw [opsClientPidConsistent, List.all_eq_true] at hcons
      have hc1 := hcons _ hop1
      rw [List.all_eq_true] at hc1
      have hc2 := hc1 _ hop2
      simp only [bne_self_eq_false, Bool.false_or, beq_iff_eq] at hc2
      omega

/-- Claim C4 (amended): starting from the empty registry, after any
sequence of `addResource`/`removeResource` operations in which no client
id is added under two different pids, each client id occurs in at most one
process entry. -/
theorem clientId_unique_entry (ops : List RMOp) (cid : Int)
    (hcons : opsClientPidConsistent ops = true) :
    entriesWithClientId cid (runOps ops) ≤ 1 := by
  have hinv := runOps_inv ops ops [] List.Pairwise.nil
    (fun p infos hmem => absurd hmem (List.not_mem_nil _)) (fun o ho => ho)
  exact sorted_provenance_count ops (runOps ops) cid hinv.1 hinv.2 hcons

/-- Witness for claim C4: two clients added under the same pid keep every
client id in a single process entry. -/
theorem clientId_unique_entry_witness :
    entriesWithClientId 7 (runOps [.add 1 7 0 [], .add 1 8 0 []]) ≤ 1 :=
  clientId_unique_entry [.add 1 7 0 [], .add 1 8 0 []] 7 (by decide)

/-- Counterexample to claim C4 as stated: adding the same client id 7
under pid 1 and then under pid 2 leaves it present in two process
entries. -/
theorem clientId_two_entries_example :
    entriesWithClientId 7 (runOps [.add 1 7 0 [], .add 2 7 0 []]) = 2 := by
  decide

end ResourceManager
